import Mathlib

/-!
Verification of the dnstest record store (`HandlerConfig`) and resolution
engine (`Handler.PrepareResponse`).

Modelling conventions:
- `uint16` record types / classes and response codes are `Nat`.
- Go slices stored in the `rrs` map are modelled as pointers (`Ptr`) into a
  `Heap` of cells, so that aliasing between a store and its clone is
  observable.  Go's `append` is modelled as in-place extension of the pointed
  cell; capacity-driven reallocation in Go only ever reduces sharing, so this
  model is sharing-maximal.
- The Go map `map[string][]dns.RR` is an association list with unique keys.
- Failure of the `records[0].(*dns.CNAME)` type assertion (a Go panic) and
  out-of-bounds indexing are modelled by an `Option`/`panicked` outcome.
- `dns.Msg` is modelled with the fields the handler reads and writes:
  `Response`, `Rcode`, `Question`, `Answer`.
-/

namespace Dnstest

/-- Constants from the miekg/dns package (RFC 1035 values). -/
def TypeA : Nat := 1

/-- CNAME record type code. -/
def TypeCNAME : Nat := 5

/-- AAAA record type code. -/
def TypeAAAA : Nat := 28

/-- Internet class code. -/
def ClassINET : Nat := 1

/-- CHAOS class code (used by tests as a non-Internet class). -/
def ClassCHAOS : Nat := 3

/-- Response code: no error. -/
def RcodeSuccess : Nat := 0

/-- Response code: server failure. -/
def RcodeServerFailure : Nat := 2

/-- Response code: non-existent domain. -/
def RcodeNameError : Nat := 3

/-- Response code: query refused. -/
def RcodeRefused : Nat := 5

/-- Model of miekg/dns `CanonicalName`: lowercase the fully-qualified form
(append a trailing dot when missing).  The library additionally treats a
backslash-escaped trailing dot as not fully qualified and lowercases full
Unicode; DNS names here are ASCII without backslashes, so lowering each
character suffices. -/
def canonicalName (s : String) : String :=
  let fq : String := if s.data.getLast? == some '.' then s else s ++ "."
  String.mk (fq.data.map Char.toLower)

/-- Model of `dns.RR_Header`: the data common to all resource records. -/
structure RR_Header where
  Name : String
  Rrtype : Nat
  Class : Nat
  Ttl : Nat
deriving DecidableEq

/-- Model of the `dns.RR` records this package constructs: `*dns.A`,
`*dns.AAAA` and `*dns.CNAME`.  The constructor is the Go dynamic type; the
header's `Rrtype` field is separate data, as in Go. -/
inductive DnsRR where
  | A (Hdr : RR_Header) (addr : List Nat)
  | AAAA (Hdr : RR_Header) (addr : List Nat)
  | CNAME (Hdr : RR_Header) (Target : String)
deriving DecidableEq

/-- Model of the `Header()` method of `dns.RR`. -/
def DnsRR.Header : DnsRR → RR_Header
  | .A hdr _ => hdr
  | .AAAA hdr _ => hdr
  | .CNAME hdr _ => hdr

/-- Model of `netip.Addr`: the two observations `AddNetipAddr` makes. -/
structure NetipAddr where
  Is6 : Bool
  AsSlice : List Nat
deriving DecidableEq

/-- A pointer to a slice cell in the heap. -/
abbrev Ptr := Nat

/-- The heap of slice cells backing the record sets of all stores. -/
abbrev Heap := List (List DnsRR)

/-- Read the cell a pointer designates (out of range reads the empty cell;
all pointers produced by the operations below are in range). -/
def Heap.read (heap : Heap) (p : Ptr) : List DnsRR :=
  (heap[p]?).getD []

/-- Overwrite the cell a pointer designates. -/
def Heap.write (heap : Heap) (p : Ptr) (v : List DnsRR) : Heap :=
  heap.set p v

/-- Association-list lookup, modelling Go map indexing `m[k]`. -/
def lookupKey (k : String) : List (String × Ptr) → Option Ptr
  | [] => none
  | (k', v) :: rest => if k' = k then some v else lookupKey k rest

/-- Association-list update, modelling Go map assignment `m[k] = v`. -/
def setKey (k : String) (v : Ptr) : List (String × Ptr) → List (String × Ptr)
  | [] => [(k, v)]
  | (k', v') :: rest => if k' = k then (k, v) :: rest else (k', v') :: setKey k v rest

/-- Association-list removal, modelling Go `delete(m, k)`. -/
def delKey (k : String) (m : List (String × Ptr)) : List (String × Ptr) :=
  m.filter (fun e => !(e.1 == k))

/-- Model of `HandlerConfig`: the `rrs` map from canonical name to the
pointer of its record-set cell (the mutex only serialises access and has no
sequential content). -/
structure HandlerConfig where
  rrs : List (String × Ptr)
deriving DecidableEq

/-- Model of `NewHandlerConfig`. -/
def NewHandlerConfig : HandlerConfig := ⟨[]⟩

/-- The `handlerDefaultTTL` constant. -/
def handlerDefaultTTL : Nat := 3600

/-- Model of the statement `c.rrs[name] = append(c.rrs[name], record)`:
an existing cell is extended in place; for an absent key `append(nil, r)`
allocates a fresh one-element cell at the end of the heap. -/
def storeAppend (c : HandlerConfig) (heap : Heap) (name : String) (record : DnsRR) :
    HandlerConfig × Heap :=
  match lookupKey name c.rrs with
  | some p => (c, heap.write p (heap.read p ++ [record]))
  | none => (⟨setKey name heap.length c.rrs⟩, heap ++ [[record]])

/-- Model of `HandlerConfig.AddNetipAddr`. -/
def HandlerConfig.AddNetipAddr (c : HandlerConfig) (heap : Heap) (name : String)
    (addr : NetipAddr) : HandlerConfig × Heap :=
  let name := canonicalName name
  let record : DnsRR :=
    match addr.Is6 with
    | true => .AAAA ⟨name, TypeAAAA, ClassINET, handlerDefaultTTL⟩ addr.AsSlice
    | false => .A ⟨name, TypeA, ClassINET, handlerDefaultTTL⟩ addr.AsSlice
  storeAppend c heap name record

/-- Model of `HandlerConfig.AddCNAME`. -/
def HandlerConfig.AddCNAME (c : HandlerConfig) (heap : Heap) (name cname : String) :
    HandlerConfig × Heap :=
  let name := canonicalName name
  let cname := canonicalName cname
  let record : DnsRR := .CNAME ⟨name, TypeCNAME, ClassINET, handlerDefaultTTL⟩ cname
  storeAppend c heap name record

/-- Model of `HandlerConfig.Remove`. -/
def HandlerConfig.Remove (c : HandlerConfig) (heap : Heap) (name : String) :
    HandlerConfig × Heap :=
  (⟨delKey (canonicalName name) c.rrs⟩, heap)

/-- The entry-copying loop of `Clone`: for each entry, `make` + `append`
allocates a fresh cell holding a copy of the pointed cell's records. -/
def cloneEntries : List (String × Ptr) → Heap → List (String × Ptr) × Heap
  | [], heap => ([], heap)
  | (k, p) :: rest, heap =>
    let inner := cloneEntries rest (heap ++ [heap.read p])
    ((k, heap.length) :: inner.1, inner.2)

/-- Model of `HandlerConfig.Clone`. -/
def HandlerConfig.Clone (c : HandlerConfig) (heap : Heap) : HandlerConfig × Heap :=
  (⟨(cloneEntries c.rrs heap).1⟩, (cloneEntries c.rrs heap).2)

/-- Model of `HandlerConfig.Lookup`: canonicalize, index the map, filter the
record set by the requested type. -/
def HandlerConfig.Lookup (c : HandlerConfig) (heap : Heap) (name : String) (qtype : Nat) :
    List DnsRR × Bool :=
  match lookupKey (canonicalName name) c.rrs with
  | none => ([], false)
  | some p => ((heap.read p).filter (fun rr => qtype == rr.Header.Rrtype), true)

/-- Model of `dns.Question`. -/
structure Question where
  Name : String
  Qtype : Nat
  Qclass : Nat
deriving DecidableEq

/-- Model of `dns.Msg`, restricted to the fields the handler touches. -/
structure DnsMsg where
  Response : Bool
  Rcode : Nat
  Question : List Question
  Answer : List DnsRR
deriving DecidableEq

/-- The zero value `&dns.Msg{}`. -/
def emptyMsg : DnsMsg := ⟨false, 0, [], []⟩

/-- Model of miekg/dns `Msg.SetReply`: mark as response, response code
success, echo the first question when there is one. -/
def DnsMsg.SetReply (resp query : DnsMsg) : DnsMsg :=
  { resp with
    Response := true
    Rcode := RcodeSuccess
    Question := match query.Question with
      | [] => resp.Question
      | q :: _ => [q] }

/-- Model of miekg/dns `Msg.SetRcode`: `SetReply` then set the code. -/
def DnsMsg.SetRcode (resp query : DnsMsg) (rcode : Nat) : DnsMsg :=
  { resp.SetReply query with Rcode := rcode }

/-- Model of `Handler`. -/
structure Handler where
  cfg : HandlerConfig

/-- Model of `NewHandler`. -/
def NewHandler (config : HandlerConfig) : Handler := ⟨config⟩

/-- The `maxCNAMEChain` constant bounding the alias chase. -/
def maxCNAMEChain : Nat := 10

/-- State of the alias-chase loop: still chasing (current name plus the
accumulated CNAME records), returned with a response, or panicked on a
failed type assertion / out-of-bounds index. -/
inductive LoopState where
  | running (qName : String) (cnames : List DnsRR)
  | done (resp : DnsMsg)
  | panicked
deriving DecidableEq

/-- One iteration of the alias-chase loop body of `PrepareResponse`
(steps 3.1 to 3.4 in the source). -/
def loopStep (cfg : HandlerConfig) (heap : Heap) (query : DnsMsg) (qType : Nat)
    (qName : String) (cnames : List DnsRR) : LoopState :=
  match cfg.Lookup heap qName qType with
  | (records, found) =>
    if found ∧ records.length > 0 then
      .done { emptyMsg.SetReply query with Answer := cnames ++ records }
    else if found then
      match cfg.Lookup heap qName TypeCNAME with
      | (crecords, cfound) =>
        if cfound ∧ crecords.length ≥ 1 then
          match crecords with
          | .CNAME _ target :: _ => .running target (cnames ++ crecords)
          | _ => .panicked
        else
          .done (emptyMsg.SetReply query)
    else
      .done (emptyMsg.SetRcode query RcodeNameError)

/-- The `for range maxCNAMEChain` loop: iterate `loopStep` while fuel
remains and no `return` has fired. -/
def runLoop (cfg : HandlerConfig) (heap : Heap) (query : DnsMsg) (qType : Nat) :
    Nat → LoopState → LoopState
  | 0, st => st
  | _ + 1, .done resp => .done resp
  | _ + 1, .panicked => .panicked
  | fuel + 1, .running qName cnames =>
    runLoop cfg heap query qType fuel (loopStep cfg heap query qType qName cnames)

/-- Model of `Handler.PrepareResponse`.  `none` models a Go panic, which the
safety theorem below rules out for reachable stores. -/
def Handler.PrepareResponse (hdl : Handler) (heap : Heap) (query : DnsMsg) :
    Option DnsMsg :=
  if query.Response ∨ query.Question.length ≠ 1 then
    some (DnsMsg.SetRcode emptyMsg query RcodeRefused)
  else
    match query.Question with
    | [q0] =>
      if q0.Qclass ≠ ClassINET then
        some (DnsMsg.SetRcode emptyMsg query RcodeRefused)
      else
        match runLoop hdl.cfg heap query q0.Qtype maxCNAMEChain (.running q0.Name []) with
        | .done resp => some resp
        | .running _ _ => some (DnsMsg.SetRcode emptyMsg query RcodeServerFailure)
        | .panicked => none
    | _ => none

/-! ### Verification layer: mutation operations, reachable states, invariants -/

/-- A mutation of the record store (the public mutating API). -/
inductive StoreOp where
  | addNetipAddr (name : String) (addr : NetipAddr)
  | addCNAME (name cname : String)
  | remove (name : String)
deriving DecidableEq

/-- Apply one mutation to a store inside a heap. -/
def applyOp (c : HandlerConfig) (heap : Heap) : StoreOp → HandlerConfig × Heap
  | .addNetipAddr name addr => c.AddNetipAddr heap name addr
  | .addCNAME name cname => c.AddCNAME heap name cname
  | .remove name => c.Remove heap name

/-- Apply a sequence of mutations, left to right. -/
def applyOps (c : HandlerConfig) (heap : Heap) : List StoreOp → HandlerConfig × Heap
  | [] => (c, heap)
  | op :: rest => applyOps (applyOp c heap op).1 (applyOp c heap op).2 rest

/-- The cell pointers a store's map refers to. -/
def ptrsOf (c : HandlerConfig) : List Ptr :=
  c.rrs.map (fun e => e.2)

/-- Every pointer of the store lies inside the heap. -/
def validStore (c : HandlerConfig) (heap : Heap) : Prop :=
  ∀ p ∈ ptrsOf c, p < heap.length

instance (c : HandlerConfig) (heap : Heap) : Decidable (validStore c heap) :=
  List.decidableBAll _ (ptrsOf c)

/-- A record is well formed when its header type tag matches its Go dynamic
type (every record the store operations construct is well formed). -/
def wfRecord : DnsRR → Bool
  | .A hdr _ => hdr.Rrtype == TypeA
  | .AAAA hdr _ => hdr.Rrtype == TypeAAAA
  | .CNAME hdr _ => hdr.Rrtype == TypeCNAME

/-- Store states reachable from the empty store by the public API. -/
inductive Reachable : HandlerConfig → Heap → Prop where
  | init : Reachable NewHandlerConfig []
  | addNetipAddr {c heap} (name : String) (addr : NetipAddr) :
      Reachable c heap →
      Reachable (c.AddNetipAddr heap name addr).1 (c.AddNetipAddr heap name addr).2
  | addCNAME {c heap} (name cname : String) :
      Reachable c heap →
      Reachable (c.AddCNAME heap name cname).1 (c.AddCNAME heap name cname).2
  | remove {c heap} (name : String) :
      Reachable c heap →
      Reachable (c.Remove heap name).1 (c.Remove heap name).2
  | clone {c heap} :
      Reachable c heap →
      Reachable (c.Clone heap).1 (c.Clone heap).2

/-- The store invariant: pointers valid, every keyed cell non-empty, and
every keyed record well formed. -/
def StoreWF (c : HandlerConfig) (heap : Heap) : Prop :=
  validStore c heap ∧
  (∀ k p, lookupKey k c.rrs = some p → Heap.read heap p ≠ []) ∧
  (∀ k p, lookupKey k c.rrs = some p → ∀ r ∈ Heap.read heap p, wfRecord r = true)

/-- A well-formed single-question Internet-class query for a name and type. -/
def mkQuery (name : String) (qtype : Nat) : DnsMsg :=
  ⟨false, 0, [⟨name, qtype, ClassINET⟩], []⟩

/-- The alias-cycle store of the spec: alias a→b and alias b→a. -/
def cycleState : HandlerConfig × Heap :=
  let s1 := NewHandlerConfig.AddCNAME [] "a.example.com" "b.example.com"
  s1.1.AddCNAME s1.2 "b.example.com" "a.example.com"

/-- A store with one alias alias→real and an IPv4 address at real. -/
def aliasState : HandlerConfig × Heap :=
  let s1 := NewHandlerConfig.AddCNAME [] "alias.example.com" "real.example.com"
  s1.1.AddNetipAddr s1.2 "real.example.com" ⟨false, [8, 8, 8, 8]⟩

/-- A store where one name owns two alias records (a→b and a→c) and an
address record exists at b. -/
def multiAliasState : HandlerConfig × Heap :=
  let s1 := NewHandlerConfig.AddCNAME [] "a.example.com" "b.example.com"
  let s2 := s1.1.AddCNAME s1.2 "a.example.com" "c.example.com"
  s2.1.AddNetipAddr s2.2 "b.example.com" ⟨false, [9, 9, 9, 9]⟩

/-- A store with only an IPv4 address record at one name. -/
def onlyV4State : HandlerConfig × Heap :=
  NewHandlerConfig.AddNetipAddr [] "www.example.com" ⟨false, [1, 1, 1, 1]⟩

/-! ### Helper lemmas about the heap and the association-list map -/

theorem Heap.length_write (heap : Heap) (p : Ptr) (v : List DnsRR) :
    (Heap.write heap p v).length = heap.length :=
  List.length_set ..

theorem Heap.read_append_lt {heap : Heap} (ext : Heap) {p : Ptr} (hp : p < heap.length) :
    Heap.read (heap ++ ext) p = Heap.read heap p := by
  simp only [Heap.read, List.getElem?_append, hp, if_pos]

theorem Heap.read_append_self (heap : Heap) (v : List DnsRR) :
    Heap.read (heap ++ [v]) heap.length = v := by
  simp [Heap.read, List.getElem?_append]

theorem Heap.read_write_ne {heap : Heap} {p q : Ptr} (v : List DnsRR) (h : p ≠ q) :
    Heap.read (heap.write p v) q = Heap.read heap q := by
  simp [Heap.read, Heap.write, List.getElem?_set_ne h]

theorem Heap.read_write_self {heap : Heap} {p : Ptr} (v : List DnsRR) (hp : p < heap.length) :
    Heap.read (heap.write p v) p = v := by
  simp [Heap.read, Heap.write, List.getElem?_set_self, hp]

theorem lookupKey_mem {k : String} {p : Ptr} :
    ∀ {m : List (String × Ptr)}, lookupKey k m = some p → (k, p) ∈ m := by
  intro m
  induction m with
  | nil => intro h; simp [lookupKey] at h
  | cons e rest ih =>
    obtain ⟨k0, v0⟩ := e
    intro h
    by_cases he : k0 = k
    · have hv : v0 = p := by simpa [lookupKey, he] using h
      subst he
      subst hv
      exact List.mem_cons_self _ _
    · simp only [lookupKey, if_neg he] at h
      exact List.mem_cons_of_mem _ (ih h)

theorem lookupKey_mem_ptrs {k : String} {p : Ptr} {c : HandlerConfig}
    (h : lookupKey k c.rrs = some p) : p ∈ ptrsOf c :=
  List.mem_map.mpr ⟨(k, p), lookupKey_mem h, rfl⟩

theorem lookupKey_setKey_self (k : String) (v : Ptr) :
    ∀ (m : List (String × Ptr)), lookupKey k (setKey k v m) = some v := by
  intro m
  induction m with
  | nil => simp [setKey, lookupKey]
  | cons e rest ih =>
    obtain ⟨k0, v0⟩ := e
    by_cases he : k0 = k
    · simp [setKey, he, lookupKey]
    · simpa [setKey, he, lookupKey] using ih

theorem lookupKey_setKey_ne {k k' : String} (v : Ptr) (hk : k' ≠ k) :
    ∀ (m : List (String × Ptr)), lookupKey k' (setKey k v m) = lookupKey k' m := by
  have hk2 : ¬(k = k') := fun h => hk h.symm
  intro m
  induction m with
  | nil => simp [setKey, lookupKey, hk2]
  | cons e rest ih =>
    obtain ⟨k0, v0⟩ := e
    by_cases he : k0 = k
    · simp [setKey, he, lookupKey, hk2]
    · simp [setKey, he, lookupKey, ih]

theorem mem_setKey {e : String × Ptr} {k : String} {v : Ptr} :
    ∀ {m : List (String × Ptr)}, e ∈ setKey k v m → e = (k, v) ∨ e ∈ m := by
  intro m
  induction m with
  | nil =>
    intro h
    simp only [setKey, List.mem_singleton] at h
    left
    exact h
  | cons e' rest ih =>
    obtain ⟨k0, v0⟩ := e'
    intro h
    by_cases he : k0 = k
    · simp only [setKey, if_pos he, List.mem_cons] at h
      rcases h with h1 | h1
      · exact Or.inl h1
      · exact Or.inr (List.mem_cons_of_mem _ h1)
    · simp only [setKey, if_neg he, List.mem_cons] at h
      rcases h with h1 | h1
      · exact Or.inr (h1 ▸ List.mem_cons_self _ _)
      · rcases ih h1 with h2 | h2
        · exact Or.inl h2
        · exact Or.inr (List.mem_cons_of_mem _ h2)

theorem lookupKey_delKey_self (k : String) (m : List (String × Ptr)) :
    lookupKey k (delKey k m) = none := by
  induction m with
  | nil => simp [delKey, lookupKey]
  | cons e rest ih =>
    obtain ⟨k0, v0⟩ := e
    by_cases he : k0 = k
    · simpa [delKey, List.filter_cons, he, lookupKey] using ih
    · simpa [delKey, List.filter_cons, he, lookupKey] using ih

theorem lookupKey_delKey_ne {k k' : String} (hk : k' ≠ k) (m : List (String × Ptr)) :
    lookupKey k' (delKey k m) = lookupKey k' m := by
  have hk2 : ¬(k = k') := fun h => hk h.symm
  induction m with
  | nil => simp [delKey, lookupKey]
  | cons e rest ih =>
    obtain ⟨k0, v0⟩ := e
    by_cases he : k0 = k
    · simpa [delKey, List.filter_cons, he, lookupKey, hk2] using ih
    · by_cases he2 : k0 = k'
      · simp [delKey, List.filter_cons, he, lookupKey, he2, hk]
      · simpa [delKey, List.filter_cons, he, lookupKey, he2] using ih

theorem mem_delKey {e : String × Ptr} {k : String} {m : List (String × Ptr)}
    (h : e ∈ delKey k m) : e ∈ m :=
  List.mem_of_mem_filter h

/-! ### Specification of the clone loop -/

theorem cloneEntries_cons (k : String) (p : Ptr) (rest : List (String × Ptr)) (heap : Heap) :
    cloneEntries ((k, p) :: rest) heap =
      ((k, heap.length) :: (cloneEntries rest (heap ++ [heap.read p])).1,
        (cloneEntries rest (heap ++ [heap.read p])).2) := rfl

theorem cloneEntries_heap_ext : ∀ (m : List (String × Ptr)) (heap : Heap),
    ∃ ext, (cloneEntries m heap).2 = heap ++ ext := by
  intro m
  induction m with
  | nil => intro heap; exact ⟨[], by simp [cloneEntries]⟩
  | cons hd rest ih =>
    obtain ⟨k0, p0⟩ := hd
    intro heap
    obtain ⟨ext, hext⟩ := ih (heap ++ [heap.read p0])
    refine ⟨[heap.read p0] ++ ext, ?_⟩
    rw [cloneEntries_cons]
    simp only [hext, List.append_assoc]

theorem cloneEntries_ptrs : ∀ (m : List (String × Ptr)) (heap : Heap),
    ∀ e ∈ (cloneEntries m heap).1,
      heap.length ≤ e.2 ∧ e.2 < (cloneEntries m heap).2.length := by
  intro m
  induction m with
  | nil => intro heap e he; simp [cloneEntries] at he
  | cons hd rest ih =>
    obtain ⟨k0, p0⟩ := hd
    intro heap e he
    rw [cloneEntries_cons] at he
    rcases List.mem_cons.mp he with h1 | h1
    · subst h1
      refine ⟨Nat.le_refl _, ?_⟩
      obtain ⟨ext, hext⟩ := cloneEntries_heap_ext rest (heap ++ [heap.read p0])
      show heap.length < (cloneEntries rest (heap ++ [heap.read p0])).2.length
      rw [hext]
      simp [List.length_append]
    · have hb := ih (heap ++ [heap.read p0]) e h1
      refine ⟨?_, hb.2⟩
      have h2 : heap.length ≤ (heap ++ [heap.read p0]).length := by simp
      have h3 := hb.1
      omega

theorem cloneEntries_lookup_none : ∀ (m : List (String × Ptr)) (heap : Heap) (k : String),
    lookupKey k (cloneEntries m heap).1 = none ↔ lookupKey k m = none := by
  intro m
  induction m with
  | nil => intro heap k; simp [cloneEntries]
  | cons hd rest ih =>
    obtain ⟨k0, p0⟩ := hd
    intro heap k
    by_cases he : k0 = k
    · simp [cloneEntries_cons, lookupKey, he]
    · simp [cloneEntries_cons, lookupKey, he, ih]

theorem cloneEntries_lookup_read : ∀ (m : List (String × Ptr)) (heap : Heap) (k : String) (p : Ptr),
    (∀ q ∈ m.map (fun e => e.2), q < heap.length) →
    lookupKey k m = some p →
    ∃ p', lookupKey k (cloneEntries m heap).1 = some p' ∧
      Heap.read (cloneEntries m heap).2 p' = Heap.read heap p := by
  intro m
  induction m with
  | nil => intro heap k p _ h; simp [lookupKey] at h
  | cons hd rest ih =>
    obtain ⟨k0, p0⟩ := hd
    intro heap k p hv h
    by_cases he : k0 = k
    · have hp : p0 = p := by simpa [lookupKey, he] using h
      subst hp
      refine ⟨heap.length, ?_, ?_⟩
      · simp [cloneEntries_cons, lookupKey, he]
      · obtain ⟨ext, hext⟩ := cloneEntries_heap_ext rest (heap ++ [heap.read p0])
        show Heap.read (cloneEntries rest (heap ++ [heap.read p0])).2 heap.length
          = Heap.read heap p0
        rw [hext]
        rw [Heap.read_append_lt ext (by simp)]
        exact Heap.read_append_self heap _
    · simp only [lookupKey, if_neg he] at h
      have hmem : p ∈ rest.map (fun e => e.2) :=
        List.mem_map.mpr ⟨(k, p), lookupKey_mem h, rfl⟩
      have hple : p < heap.length := by
        refine hv p ?_
        simp only [List.map_cons]
        exact List.mem_cons_of_mem _ hmem
      have hv' : ∀ q ∈ rest.map (fun e => e.2), q < (heap ++ [heap.read p0]).length := by
        intro q hq
        have hq2 : q < heap.length := by
          refine hv q ?_
          simp only [List.map_cons]
          exact List.mem_cons_of_mem _ hq
        simp only [List.length_append]
        omega
      obtain ⟨p', hp', hr⟩ := ih (heap ++ [heap.read p0]) k p hv' h
      refine ⟨p', ?_, ?_⟩
      · simp [cloneEntries_cons, lookupKey, he, hp']
      · show Heap.read (cloneEntries rest (heap ++ [heap.read p0])).2 p' = Heap.read heap p
        rw [hr]
        exact Heap.read_append_lt _ hple

/-! ### Equations for the loop body -/

theorem runLoop_zero (cfg : HandlerConfig) (heap : Heap) (query : DnsMsg) (qType : Nat)
    (st : LoopState) : runLoop cfg heap query qType 0 st = st := rfl

theorem runLoop_succ_running (cfg : HandlerConfig) (heap : Heap) (query : DnsMsg)
    (qType fuel : Nat) (qName : String) (cnames : List DnsRR) :
    runLoop cfg heap query qType (fuel + 1) (.running qName cnames)
      = runLoop cfg heap query qType fuel (loopStep cfg heap query qType qName cnames) := rfl

theorem runLoop_succ_done (cfg : HandlerConfig) (heap : Heap) (query : DnsMsg)
    (qType fuel : Nat) (resp : DnsMsg) :
    runLoop cfg heap query qType (fuel + 1) (.done resp) = .done resp := rfl

theorem loopStep_found {cfg : HandlerConfig} {heap : Heap} {qName : String} {qType : Nat}
    {records : List DnsRR} (query : DnsMsg) (cnames : List DnsRR)
    (hl : cfg.Lookup heap qName qType = (records, true)) (hne : 0 < records.length) :
    loopStep cfg heap query qType qName cnames
      = .done { emptyMsg.SetReply query with Answer := cnames ++ records } := by
  unfold loopStep
  rw [hl]
  simp [hne]

theorem loopStep_absent {cfg : HandlerConfig} {heap : Heap} {qName : String} {qType : Nat}
    {records : List DnsRR} (query : DnsMsg) (cnames : List DnsRR)
    (hl : cfg.Lookup heap qName qType = (records, false)) :
    loopStep cfg heap query qType qName cnames
      = .done (emptyMsg.SetRcode query RcodeNameError) := by
  unfold loopStep
  rw [hl]
  simp

theorem loopStep_alias {cfg : HandlerConfig} {heap : Heap} {qName : String} {qType : Nat}
    {hdr : RR_Header} {target : String} {more : List DnsRR} (query : DnsMsg)
    (cnames : List DnsRR)
    (hl : cfg.Lookup heap qName qType = ([], true))
    (hlc : cfg.Lookup heap qName TypeCNAME = (.CNAME hdr target :: more, true)) :
    loopStep cfg heap query qType qName cnames
      = .running target (cnames ++ (DnsRR.CNAME hdr target :: more)) := by
  unfold loopStep
  rw [hl, hlc]
  simp

theorem loopStep_noalias {cfg : HandlerConfig} {heap : Heap} {qName : String} {qType : Nat}
    {cfound : Bool} (query : DnsMsg) (cnames : List DnsRR)
    (hl : cfg.Lookup heap qName qType = ([], true))
    (hlc : cfg.Lookup heap qName TypeCNAME = ([], cfound)) :
    loopStep cfg heap query qType qName cnames = .done (emptyMsg.SetReply query) := by
  unfold loopStep
  rw [hl, hlc]
  simp

/-! ### Lookup facts -/

theorem Lookup_rrtype {c : HandlerConfig} {heap : Heap} {name : String} {qtype : Nat} :
    ∀ r ∈ (c.Lookup heap name qtype).1, r.Header.Rrtype = qtype := by
  intro r hr
  unfold HandlerConfig.Lookup at hr
  cases hl : lookupKey (canonicalName name) c.rrs with
  | none => rw [hl] at hr; simp at hr
  | some p =>
    rw [hl] at hr
    simp only [List.mem_filter] at hr
    exact (eq_of_beq hr.2).symm

theorem Lookup_mem_cell {c : HandlerConfig} {heap : Heap} {name : String} {qtype : Nat}
    {r : DnsRR} (hr : r ∈ (c.Lookup heap name qtype).1) :
    ∃ p, lookupKey (canonicalName name) c.rrs = some p ∧ r ∈ Heap.read heap p := by
  unfold HandlerConfig.Lookup at hr
  cases hl : lookupKey (canonicalName name) c.rrs with
  | none => rw [hl] at hr; simp at hr
  | some p =>
    rw [hl] at hr
    exact ⟨p, rfl, List.mem_of_mem_filter hr⟩

theorem Lookup_wfRecord {c : HandlerConfig} {heap : Heap} (hwf : StoreWF c heap)
    {name : String} {qtype : Nat} {r : DnsRR} (hr : r ∈ (c.Lookup heap name qtype).1) :
    wfRecord r = true := by
  obtain ⟨p, hp, hmem⟩ := Lookup_mem_cell hr
  exact hwf.2.2 (canonicalName name) p hp r hmem

theorem Lookup_congr (o : HandlerConfig) {h1 h2 : Heap}
    (hr : ∀ p ∈ ptrsOf o, Heap.read h2 p = Heap.read h1 p) (name : String) (t : Nat) :
    o.Lookup h2 name t = o.Lookup h1 name t := by
  unfold HandlerConfig.Lookup
  cases hl : lookupKey (canonicalName name) o.rrs with
  | none => rfl
  | some p =>
    show (List.filter (fun rr => t == rr.Header.Rrtype) (Heap.read h2 p), true)
      = (List.filter (fun rr => t == rr.Header.Rrtype) (Heap.read h1 p), true)
    rw [hr p (lookupKey_mem_ptrs hl)]

/-! ### Frame lemmas: a mutation only touches the mutating store's cells -/

theorem storeAppend_frame (c : HandlerConfig) (heap : Heap) (name : String) (record : DnsRR) :
    heap.length ≤ (storeAppend c heap name record).2.length ∧
    (∀ p, p < heap.length → p ∉ ptrsOf c →
      Heap.read (storeAppend c heap name record).2 p = Heap.read heap p) ∧
    (∀ p ∈ ptrsOf (storeAppend c heap name record).1,
      p ∈ ptrsOf c ∨ (heap.length ≤ p ∧ p < (storeAppend c heap name record).2.length)) := by
  cases hl : lookupKey name c.rrs with
  | some q =>
    have hq : q ∈ ptrsOf c := lookupKey_mem_ptrs hl
    simp only [storeAppend, hl]
    refine ⟨?_, ?_, ?_⟩
    · rw [Heap.length_write]
    · intro p _ hnp
      exact Heap.read_write_ne _ (fun hqp => hnp (hqp ▸ hq))
    · intro p hp
      exact Or.inl hp
  | none =>
    simp only [storeAppend, hl]
    refine ⟨?_, ?_, ?_⟩
    · simp
    · intro p hp _
      exact Heap.read_append_lt _ hp
    · intro p hp
      obtain ⟨e, he, rfl⟩ := List.mem_map.mp hp
      rcases mem_setKey he with h1 | h1
      · right
        rw [h1]
        simp
      · exact Or.inl (List.mem_map.mpr ⟨e, h1, rfl⟩)

theorem applyOp_frame (c : HandlerConfig) (heap : Heap) (op : StoreOp) :
    heap.length ≤ (applyOp c heap op).2.length ∧
    (∀ p, p < heap.length → p ∉ ptrsOf c →
      Heap.read (applyOp c heap op).2 p = Heap.read heap p) ∧
    (∀ p ∈ ptrsOf (applyOp c heap op).1,
      p ∈ ptrsOf c ∨ (heap.length ≤ p ∧ p < (applyOp c heap op).2.length)) := by
  cases op with
  | addNetipAddr name addr => exact storeAppend_frame c heap (canonicalName name) _
  | addCNAME name cname => exact storeAppend_frame c heap (canonicalName name) _
  | remove name =>
    refine ⟨Nat.le_refl _, fun p _ _ => rfl, ?_⟩
    intro p hp
    left
    obtain ⟨e, he, rfl⟩ := List.mem_map.mp hp
    exact List.mem_map.mpr ⟨e, mem_delKey he, rfl⟩

theorem applyOps_frame (o : HandlerConfig) :
    ∀ (ops : List StoreOp) (c : HandlerConfig) (heap : Heap),
      validStore o heap → (∀ p ∈ ptrsOf c, p ∉ ptrsOf o) →
      (∀ p ∈ ptrsOf o, Heap.read (applyOps c heap ops).2 p = Heap.read heap p) ∧
      validStore o (applyOps c heap ops).2 := by
  intro ops
  induction ops with
  | nil => intro c heap hvo _; exact ⟨fun p _ => rfl, hvo⟩
  | cons op rest ih =>
    intro c heap hvo hd
    obtain ⟨hlen, hreads, hptrs⟩ := applyOp_frame c heap op
    have hvo1 : validStore o (applyOp c heap op).2 :=
      fun p hp => Nat.lt_of_lt_of_le (hvo p hp) hlen
    have hd1 : ∀ p ∈ ptrsOf (applyOp c heap op).1, p ∉ ptrsOf o := by
      intro p hp
      rcases hptrs p hp with h | h
      · exact hd p h
      · intro hpo
        exact absurd (hvo p hpo) (Nat.not_lt.mpr h.1)
    obtain ⟨hr, hv⟩ := ih (applyOp c heap op).1 (applyOp c heap op).2 hvo1 hd1
    refine ⟨?_, hv⟩
    intro p hp
    show Heap.read (applyOps (applyOp c heap op).1 (applyOp c heap op).2 rest).2 p
      = Heap.read heap p
    rw [hr p hp]
    exact hreads p (hvo p hp) (fun hpc => hd p hpc hp)

/-! ### Preservation of the store invariant -/

theorem storeAppend_wf {c : HandlerConfig} {heap : Heap} {name : String} {record : DnsRR}
    (hwf : StoreWF c heap) (hrec : wfRecord record = true) :
    StoreWF (storeAppend c heap name record).1 (storeAppend c heap name record).2 := by
  obtain ⟨hv, hne, hwfr⟩ := hwf
  cases hl : lookupKey name c.rrs with
  | some q =>
    have hqlt : q < heap.length := hv q (lookupKey_mem_ptrs hl)
    simp only [storeAppend, hl]
    refine ⟨?_, ?_, ?_⟩
    · intro p hp
      rw [Heap.length_write]
      exact hv p hp
    · intro k p hkp
      by_cases hpq : q = p
      · subst hpq
        rw [Heap.read_write_self _ hqlt]
        simp
      · rw [Heap.read_write_ne _ hpq]
        exact hne k p hkp
    · intro k p hkp r hr
      by_cases hpq : q = p
      · subst hpq
        rw [Heap.read_write_self _ hqlt] at hr
        rcases List.mem_append.mp hr with h1 | h1
        · exact hwfr name q hl r h1
        · rw [List.mem_singleton.mp h1]
          exact hrec
      · rw [Heap.read_write_ne _ hpq] at hr
        exact hwfr k p hkp r hr
  | none =>
    simp only [storeAppend, hl]
    refine ⟨?_, ?_, ?_⟩
    · intro p hp
      obtain ⟨e, he, rfl⟩ := List.mem_map.mp hp
      rcases mem_setKey he with h1 | h1
      · rw [h1]
        simp
      · have h1' : e.2 < heap.length := hv e.2 (List.mem_map.mpr ⟨e, h1, rfl⟩)
        have h2 : (heap ++ [[record]]).length = heap.length + 1 := by simp
        show e.2 < (heap ++ [[record]]).length
        rw [h2]
        exact Nat.lt_succ_of_lt h1'
    · intro k p hkp
      by_cases hk : k = name
      · subst hk
        rw [lookupKey_setKey_self] at hkp
        obtain rfl : heap.length = p := by simpa using hkp
        rw [Heap.read_append_self]
        simp
      · rw [lookupKey_setKey_ne _ hk] at hkp
        have hplt : p < heap.length := hv p (lookupKey_mem_ptrs hkp)
        rw [Heap.read_append_lt _ hplt]
        exact hne k p hkp
    · intro k p hkp r hr
      by_cases hk : k = name
      · subst hk
        rw [lookupKey_setKey_self] at hkp
        obtain rfl : heap.length = p := by simpa using hkp
        rw [Heap.read_append_self] at hr
        rw [List.mem_singleton.mp hr]
        exact hrec
      · rw [lookupKey_setKey_ne _ hk] at hkp
        have hplt : p < heap.length := hv p (lookupKey_mem_ptrs hkp)
        rw [Heap.read_append_lt _ hplt] at hr
        exact hwfr k p hkp r hr

theorem addNetipAddr_wf {c : HandlerConfig} {heap : Heap} (hwf : StoreWF c heap)
    (name : String) (addr : NetipAddr) :
    StoreWF (c.AddNetipAddr heap name addr).1 (c.AddNetipAddr heap name addr).2 := by
  unfold HandlerConfig.AddNetipAddr
  apply storeAppend_wf hwf
  cases h6 : addr.Is6 <;> rfl

theorem addCNAME_wf {c : HandlerConfig} {heap : Heap} (hwf : StoreWF c heap)
    (name cname : String) :
    StoreWF (c.AddCNAME heap name cname).1 (c.AddCNAME heap name cname).2 := by
  unfold HandlerConfig.AddCNAME
  exact storeAppend_wf hwf rfl

theorem remove_wf {c : HandlerConfig} {heap : Heap} (hwf : StoreWF c heap) (name : String) :
    StoreWF (c.Remove heap name).1 (c.Remove heap name).2 := by
  obtain ⟨hv, hne, hwfr⟩ := hwf
  show StoreWF ⟨delKey (canonicalName name) c.rrs⟩ heap
  refine ⟨?_, ?_, ?_⟩
  · intro p hp
    obtain ⟨e, he, rfl⟩ := List.mem_map.mp hp
    exact hv e.2 (List.mem_map.mpr ⟨e, mem_delKey he, rfl⟩)
  · intro k p hkp
    by_cases hk : k = canonicalName name
    · subst hk
      rw [lookupKey_delKey_self] at hkp
      exact Option.noConfusion hkp
    · rw [lookupKey_delKey_ne hk] at hkp
      exact hne k p hkp
  · intro k p hkp r hr
    by_cases hk : k = canonicalName name
    · subst hk
      rw [lookupKey_delKey_self] at hkp
      exact Option.noConfusion hkp
    · rw [lookupKey_delKey_ne hk] at hkp
      exact hwfr k p hkp r hr

theorem clone_wf {c : HandlerConfig} {heap : Heap} (hwf : StoreWF c heap) :
    StoreWF (c.Clone heap).1 (c.Clone heap).2 := by
  obtain ⟨hv, hne, hwfr⟩ := hwf
  have hvm : ∀ q ∈ c.rrs.map (fun e => e.2), q < heap.length := hv
  refine ⟨?_, ?_, ?_⟩
  · intro p hp
    obtain ⟨e, he, rfl⟩ := List.mem_map.mp hp
    exact (cloneEntries_ptrs c.rrs heap e he).2
  · intro k p' hkp'
    have hkp2 : lookupKey k (cloneEntries c.rrs heap).1 = some p' := hkp'
    have hnn : ¬(lookupKey k c.rrs = none) := by
      intro h0
      rw [(cloneEntries_lookup_none c.rrs heap k).mpr h0] at hkp2
      exact Option.noConfusion hkp2
    obtain ⟨p, hp⟩ := Option.ne_none_iff_exists'.mp hnn
    obtain ⟨p'', hp'', hread⟩ := cloneEntries_lookup_read c.rrs heap k p hvm hp
    have hpp : p'' = p' := by
      rw [hkp2] at hp''
      exact (Option.some.injEq ..).mp hp''.symm
    subst hpp
    show Heap.read (cloneEntries c.rrs heap).2 p'' ≠ []
    rw [hread]
    exact hne k p hp
  · intro k p' hkp' r hr
    have hkp2 : lookupKey k (cloneEntries c.rrs heap).1 = some p' := hkp'
    have hnn : ¬(lookupKey k c.rrs = none) := by
      intro h0
      rw [(cloneEntries_lookup_none c.rrs heap k).mpr h0] at hkp2
      exact Option.noConfusion hkp2
    obtain ⟨p, hp⟩ := Option.ne_none_iff_exists'.mp hnn
    obtain ⟨p'', hp'', hread⟩ := cloneEntries_lookup_read c.rrs heap k p hvm hp
    have hpp : p'' = p' := by
      rw [hkp2] at hp''
      exact (Option.some.injEq ..).mp hp''.symm
    subst hpp
    have hr2 : r ∈ Heap.read (cloneEntries c.rrs heap).2 p'' := hr
    rw [hread] at hr2
    exact hwfr k p hp r hr2

theorem reachable_StoreWF : ∀ {c : HandlerConfig} {heap : Heap},
    Reachable c heap → StoreWF c heap := by
  intro c heap h
  induction h with
  | init =>
    refine ⟨?_, ?_, ?_⟩
    · intro p hp
      simp [ptrsOf, NewHandlerConfig] at hp
    · intro k p hkp
      simp [lookupKey, NewHandlerConfig] at hkp
    · intro k p hkp
      simp [lookupKey, NewHandlerConfig] at hkp
  | addNetipAddr name addr _ ih => exact addNetipAddr_wf ih name addr
  | addCNAME name cname _ ih => exact addCNAME_wf ih name cname
  | remove name _ ih => exact remove_wf ih name
  | clone _ ih => exact clone_wf ih

/-! ### Panic freedom of the alias chase -/

theorem Lookup_found_of_ne_nil {c : HandlerConfig} {heap : Heap} {name : String} {t : Nat}
    (h : (c.Lookup heap name t).1 ≠ []) : (c.Lookup heap name t).2 = true := by
  unfold HandlerConfig.Lookup at h ⊢
  cases hl : lookupKey (canonicalName name) c.rrs with
  | none => rw [hl] at h; exact absurd rfl h
  | some p => rfl

theorem wfRecord_cname {r : DnsRR} (hwf : wfRecord r = true)
    (ht : r.Header.Rrtype = TypeCNAME) : ∃ hdr target, r = .CNAME hdr target := by
  cases r with
  | A hdr a =>
    exfalso
    simp only [wfRecord, beq_iff_eq] at hwf
    simp only [DnsRR.Header] at ht
    rw [hwf] at ht
    exact absurd ht (by decide)
  | AAAA hdr a =>
    exfalso
    simp only [wfRecord, beq_iff_eq] at hwf
    simp only [DnsRR.Header] at ht
    rw [hwf] at ht
    exact absurd ht (by decide)
  | CNAME hdr target => exact ⟨hdr, target, rfl⟩

theorem loopStep_no_panic {c : HandlerConfig} {heap : Heap} (hwf : StoreWF c heap)
    (query : DnsMsg) (qType : Nat) (qName : String) (cnames : List DnsRR) :
    loopStep c heap query qType qName cnames ≠ .panicked := by
  rcases hl : c.Lookup heap qName qType with ⟨records, found⟩
  cases found with
  | false =>
    rw [loopStep_absent query cnames hl]
    simp
  | true =>
    cases records with
    | cons r rs =>
      rw [loopStep_found query cnames hl (by simp)]
      simp
    | nil =>
      rcases hlc : c.Lookup heap qName TypeCNAME with ⟨crecords, cfound⟩
      cases crecords with
      | nil =>
        rw [loopStep_noalias query cnames hl hlc]
        simp
      | cons r rest =>
        have hcf : cfound = true := by
          have hne : (c.Lookup heap qName TypeCNAME).1 ≠ [] := by
            rw [hlc]
            simp
          have := Lookup_found_of_ne_nil hne
          rw [hlc] at this
          exact this
        subst hcf
        have hrmem : r ∈ (c.Lookup heap qName TypeCNAME).1 := by
          rw [hlc]
          exact List.mem_cons_self _ _
        have hwfr := Lookup_wfRecord hwf hrmem
        have ht := Lookup_rrtype r hrmem
        obtain ⟨hdr, target, rfl⟩ := wfRecord_cname hwfr ht
        rw [loopStep_alias query cnames hl hlc]
        simp

theorem runLoop_no_panic {c : HandlerConfig} {heap : Heap} (hwf : StoreWF c heap)
    (query : DnsMsg) (qType : Nat) :
    ∀ (fuel : Nat) (st : LoopState), st ≠ .panicked →
      runLoop c heap query qType fuel st ≠ .panicked := by
  intro fuel
  induction fuel with
  | zero => intro st h; exact h
  | succ n ih =>
    intro st h
    cases st with
    | done resp =>
      rw [runLoop_succ_done]
      simp
    | panicked => exact absurd rfl h
    | running qName cnames =>
      rw [runLoop_succ_running]
      exact ih _ (loopStep_no_panic hwf query qType qName cnames)

theorem prepareResponse_isSome {c : HandlerConfig} {heap : Heap} (hwf : StoreWF c heap)
    (query : DnsMsg) : ((NewHandler c).PrepareResponse heap query).isSome = true := by
  unfold Handler.PrepareResponse
  by_cases h1 : (query.Response = true ∨ query.Question.length ≠ 1)
  · rw [if_pos h1]
    rfl
  · rw [if_neg h1]
    push_neg at h1
    obtain ⟨hresp, hlen⟩ := h1
    cases hq : query.Question with
    | nil => rw [hq] at hlen; simp at hlen
    | cons q0 rest =>
      cases rest with
      | cons q1 r2 => rw [hq] at hlen; simp at hlen
      | nil =>
        simp only [hq]
        by_cases h2 : q0.Qclass ≠ ClassINET
        · rw [if_pos h2]
          rfl
        · rw [if_neg h2]
          cases hr : runLoop (NewHandler c).cfg heap query q0.Qtype maxCNAMEChain
              (.running q0.Name []) with
          | done resp => rfl
          | running qn cn => rfl
          | panicked =>
            exact absurd hr
              (runLoop_no_panic hwf query q0.Qtype maxCNAMEChain _ (by simp))

theorem NewHandler_cfg (c : HandlerConfig) : (NewHandler c).cfg = c := rfl

theorem prepareResponse_eq_runLoop (c : HandlerConfig) (heap : Heap) (query : DnsMsg)
    (q0 : Question) (hresp : query.Response = false) (hq : query.Question = [q0])
    (hclass : q0.Qclass = ClassINET) :
    (NewHandler c).PrepareResponse heap query =
      match runLoop c heap query q0.Qtype maxCNAMEChain (.running q0.Name []) with
      | .done resp => some resp
      | .running _ _ => some (emptyMsg.SetRcode query RcodeServerFailure)
      | .panicked => none := by
  unfold Handler.PrepareResponse
  have hcond : ¬(query.Response = true ∨ query.Question.length ≠ 1) := by
    intro h
    rcases h with h | h
    · rw [hresp] at h
      exact Bool.false_ne_true h
    · rw [hq] at h
      exact h rfl
  rw [if_neg hcond]
  simp only [hq, NewHandler_cfg]
  rw [if_neg (show ¬(q0.Qclass ≠ ClassINET) from fun h => h hclass)]

theorem Clone_rrs (c : HandlerConfig) (heap : Heap) :
    (c.Clone heap).1.rrs = (cloneEntries c.rrs heap).1 := rfl

theorem Clone_heap (c : HandlerConfig) (heap : Heap) :
    (c.Clone heap).2 = (cloneEntries c.rrs heap).2 := rfl

theorem Lookup_eq_empty_true {c : HandlerConfig} {heap : Heap} {name : String} {qtype : Nat}
    {p : Ptr} (hp : lookupKey (canonicalName name) c.rrs = some p)
    (hall : ∀ r ∈ Heap.read heap p, r.Header.Rrtype ≠ qtype) :
    c.Lookup heap name qtype = ([], true) := by
  unfold HandlerConfig.Lookup
  rw [hp]
  show (List.filter (fun rr => qtype == rr.Header.Rrtype) (Heap.read heap p), true) = ([], true)
  have hf : List.filter (fun rr => qtype == rr.Header.Rrtype) (Heap.read heap p) = [] := by
    rw [List.filter_eq_nil_iff]
    intro r hr hbeq
    exact hall r hr (eq_of_beq hbeq).symm
  rw [hf]

/-! ### The claims -/

/-- C3: for every name and record type, `Lookup` canonicalizes the name and
has a three-way outcome: `([], false)` when the canonical name has no entry
at all; `(records, true)` with `records` empty when the name has an entry but
no record of the requested type; and the filtered records (each of the
requested type) with `true` otherwise. -/
theorem c3_lookup_three_way :
    ∀ (c : HandlerConfig) (heap : Heap) (name : String) (qtype : Nat),
      (lookupKey (canonicalName name) c.rrs = none → c.Lookup heap name qtype = ([], false)) ∧
      (∀ p, lookupKey (canonicalName name) c.rrs = some p →
        (c.Lookup heap name qtype).2 = true ∧
        ((∀ r ∈ Heap.read heap p, r.Header.Rrtype ≠ qtype) →
          c.Lookup heap name qtype = ([], true)) ∧
        (∀ r ∈ Heap.read heap p, r.Header.Rrtype = qtype →
          r ∈ (c.Lookup heap name qtype).1)) := by
  intro c heap name qtype
  constructor
  · intro h
    unfold HandlerConfig.Lookup
    rw [h]
  · intro p hp
    refine ⟨?_, fun hall => Lookup_eq_empty_true hp hall, ?_⟩
    · unfold HandlerConfig.Lookup
      rw [hp]
    · intro r hr hrt
      unfold HandlerConfig.Lookup
      rw [hp]
      show r ∈ List.filter (fun rr => qtype == rr.Header.Rrtype) (Heap.read heap p)
      refine List.mem_filter.mpr ⟨hr, ?_⟩
      rw [hrt]
      exact beq_self_eq_true qtype

/-- C3 witness: on the store holding one IPv4 record for www.example.com, the
three outcomes are observable: an absent name, the present name queried at
the wrong type, and the present name queried at the stored type. -/
theorem c3_witness :
    onlyV4State.1.Lookup onlyV4State.2 "absent.example.com" TypeA = ([], false) ∧
    (onlyV4State.1.Lookup onlyV4State.2 "www.example.com" TypeAAAA).2 = true ∧
    onlyV4State.1.Lookup onlyV4State.2 "www.example.com" TypeAAAA = ([], true) ∧
    DnsRR.A ⟨"www.example.com.", TypeA, ClassINET, handlerDefaultTTL⟩ [1, 1, 1, 1]
      ∈ (onlyV4State.1.Lookup onlyV4State.2 "www.example.com" TypeA).1 :=
  ⟨(c3_lookup_three_way onlyV4State.1 onlyV4State.2 "absent.example.com" TypeA).1 (by decide),
   ((c3_lookup_three_way onlyV4State.1 onlyV4State.2 "www.example.com" TypeAAAA).2 0
     (by decide)).1,
   ((c3_lookup_three_way onlyV4State.1 onlyV4State.2 "www.example.com" TypeAAAA).2 0
     (by decide)).2.1 (by decide),
   ((c3_lookup_three_way onlyV4State.1 onlyV4State.2 "www.example.com" TypeA).2 0
     (by decide)).2.2 _ (by decide) (by decide)⟩

/-- C4: a query flagged as a response, or with a question count different
from one, or whose single question is not Internet class, is answered with
Refused and an empty answer, and the result does not depend on the store. -/
theorem c4_refused :
    ∀ (c c' : HandlerConfig) (heap heap' : Heap) (query : DnsMsg),
      (query.Response = true ∨ query.Question.length ≠ 1 ∨
        (∃ q0, query.Question = [q0] ∧ q0.Qclass ≠ ClassINET)) →
      (NewHandler c).PrepareResponse heap query
        = some (emptyMsg.SetRcode query RcodeRefused) ∧
      (emptyMsg.SetRcode query RcodeRefused).Answer = [] ∧
      (emptyMsg.SetRcode query RcodeRefused).Rcode = RcodeRefused ∧
      (NewHandler c).PrepareResponse heap query = (NewHandler c').PrepareResponse heap' query := by
  intro c c' heap heap' query h
  have main : ∀ (d : HandlerConfig) (hp : Heap),
      (NewHandler d).PrepareResponse hp query = some (emptyMsg.SetRcode query RcodeRefused) := by
    intro d hp
    unfold Handler.PrepareResponse
    rcases h with h | h | ⟨q0, hq, hcl⟩
    · rw [if_pos (Or.inl h)]
    · rw [if_pos (Or.inr h)]
    · by_cases hresp : query.Response = true
      · rw [if_pos (Or.inl hresp)]
      · have hcond : ¬(query.Response = true ∨ query.Question.length ≠ 1) := by
          intro hcon
          rcases hcon with h1 | h1
          · exact hresp h1
          · rw [hq] at h1
            exact h1 rfl
        rw [if_neg hcond]
        simp only [hq]
        rw [if_pos hcl]
  exact ⟨main c heap, rfl, rfl, (main c heap).trans (main c' heap').symm⟩

/-- C4 witness: a two-question CHAOS-class query against the cycle store is
refused, with the same result against the empty store. -/
theorem c4_witness :
    (NewHandler cycleState.1).PrepareResponse cycleState.2
        ⟨false, 0, [⟨"a.example.com", TypeA, ClassCHAOS⟩], []⟩
      = some (emptyMsg.SetRcode ⟨false, 0, [⟨"a.example.com", TypeA, ClassCHAOS⟩], []⟩
          RcodeRefused) ∧
    (emptyMsg.SetRcode ⟨false, 0, [⟨"a.example.com", TypeA, ClassCHAOS⟩], []⟩
        RcodeRefused).Answer = [] ∧
    (emptyMsg.SetRcode ⟨false, 0, [⟨"a.example.com", TypeA, ClassCHAOS⟩], []⟩
        RcodeRefused).Rcode = RcodeRefused ∧
    (NewHandler cycleState.1).PrepareResponse cycleState.2
        ⟨false, 0, [⟨"a.example.com", TypeA, ClassCHAOS⟩], []⟩
      = (NewHandler NewHandlerConfig).PrepareResponse []
          ⟨false, 0, [⟨"a.example.com", TypeA, ClassCHAOS⟩], []⟩ :=
  c4_refused cycleState.1 NewHandlerConfig cycleState.2 []
    ⟨false, 0, [⟨"a.example.com", TypeA, ClassCHAOS⟩], []⟩
    (Or.inr (Or.inr ⟨⟨"a.example.com", TypeA, ClassCHAOS⟩, rfl, by decide⟩))

/-- C5: a name whose canonical form has no entry in the store yields
`([], false)` from Lookup for every type, and a well-formed Internet-class
query for it is answered with NameError and an empty answer. -/
theorem c5_nxdomain :
    ∀ (c : HandlerConfig) (heap : Heap) (name : String) (qtype : Nat),
      lookupKey (canonicalName name) c.rrs = none →
      c.Lookup heap name qtype = ([], false) ∧
      (∀ (query : DnsMsg), query.Response = false →
        query.Question = [⟨name, qtype, ClassINET⟩] →
        (NewHandler c).PrepareResponse heap query
          = some (emptyMsg.SetRcode query RcodeNameError) ∧
        (emptyMsg.SetRcode query RcodeNameError).Answer = [] ∧
        (emptyMsg.SetRcode query RcodeNameError).Rcode = RcodeNameError) := by
  intro c heap name qtype hnone
  have hl : c.Lookup heap name qtype = ([], false) := by
    unfold HandlerConfig.Lookup
    rw [hnone]
  refine ⟨hl, ?_⟩
  intro query hresp hq
  refine ⟨?_, rfl, rfl⟩
  rw [prepareResponse_eq_runLoop c heap query ⟨name, qtype, ClassINET⟩ hresp hq rfl]
  show (match runLoop c heap query qtype maxCNAMEChain (.running name []) with
    | .done resp => some resp
    | .running _ _ => some (emptyMsg.SetRcode query RcodeServerFailure)
    | .panicked => none) = some (emptyMsg.SetRcode query RcodeNameError)
  rw [show maxCNAMEChain = 9 + 1 from rfl, runLoop_succ_running,
    loopStep_absent query [] hl, show (9 : Nat) = 8 + 1 from rfl, runLoop_succ_done]

/-- C5 witness: an unknown name on the one-record store gets NameError. -/
theorem c5_witness :
    onlyV4State.1.Lookup onlyV4State.2 "absent.example.com" TypeA = ([], false) ∧
    ((NewHandler onlyV4State.1).PrepareResponse onlyV4State.2
        (mkQuery "absent.example.com" TypeA)
      = some (emptyMsg.SetRcode (mkQuery "absent.example.com" TypeA) RcodeNameError) ∧
    (emptyMsg.SetRcode (mkQuery "absent.example.com" TypeA) RcodeNameError).Answer = [] ∧
    (emptyMsg.SetRcode (mkQuery "absent.example.com" TypeA) RcodeNameError).Rcode
      = RcodeNameError) :=
  ⟨(c5_nxdomain onlyV4State.1 onlyV4State.2 "absent.example.com" TypeA (by decide)).1,
   (c5_nxdomain onlyV4State.1 onlyV4State.2 "absent.example.com" TypeA (by decide)).2
     (mkQuery "absent.example.com" TypeA) rfl rfl⟩

/-- C6: a name that exists but has neither a record of the requested type nor
an alias record is answered with Success and an empty answer section; in
particular a IPv6 query against a store holding only an IPv4 record for that
name. -/
theorem c6_success_empty :
    (∀ (c : HandlerConfig) (heap : Heap) (name : String) (qtype : Nat) (p : Ptr),
      lookupKey (canonicalName name) c.rrs = some p →
      (∀ r ∈ Heap.read heap p, r.Header.Rrtype ≠ qtype) →
      (∀ r ∈ Heap.read heap p, r.Header.Rrtype ≠ TypeCNAME) →
      ∀ (query : DnsMsg), query.Response = false →
        query.Question = [⟨name, qtype, ClassINET⟩] →
        (NewHandler c).PrepareResponse heap query = some (emptyMsg.SetReply query) ∧
        (emptyMsg.SetReply query).Rcode = RcodeSuccess ∧
        (emptyMsg.SetReply query).Answer = []) ∧
    ((NewHandler onlyV4State.1).PrepareResponse onlyV4State.2
        (mkQuery "www.example.com" TypeAAAA)
      = some { Response := true, Rcode := RcodeSuccess,
               Question := [⟨"www.example.com", TypeAAAA, ClassINET⟩], Answer := [] }) := by
  constructor
  · intro c heap name qtype p hp hnoq hnoc query hresp hq
    have hlq : c.Lookup heap name qtype = ([], true) := Lookup_eq_empty_true hp hnoq
    have hlc : c.Lookup heap name TypeCNAME = ([], true) := Lookup_eq_empty_true hp hnoc
    refine ⟨?_, rfl, rfl⟩
    rw [prepareResponse_eq_runLoop c heap query ⟨name, qtype, ClassINET⟩ hresp hq rfl]
    show (match runLoop c heap query qtype maxCNAMEChain (.running name []) with
      | .done resp => some resp
      | .running _ _ => some (emptyMsg.SetRcode query RcodeServerFailure)
      | .panicked => none) = some (emptyMsg.SetReply query)
    rw [show maxCNAMEChain = 9 + 1 from rfl, runLoop_succ_running,
      loopStep_noalias query [] hlq hlc, show (9 : Nat) = 8 + 1 from rfl, runLoop_succ_done]
  · decide

/-- C6 witness: the general branch applied to the IPv4-only store queried
for the IPv6 type. -/
theorem c6_witness :
    (NewHandler onlyV4State.1).PrepareResponse onlyV4State.2
        (mkQuery "www.example.com" TypeAAAA)
      = some (emptyMsg.SetReply (mkQuery "www.example.com" TypeAAAA)) ∧
    (emptyMsg.SetReply (mkQuery "www.example.com" TypeAAAA)).Rcode = RcodeSuccess ∧
    (emptyMsg.SetReply (mkQuery "www.example.com" TypeAAAA)).Answer = [] :=
  c6_success_empty.1 onlyV4State.1 onlyV4State.2 "www.example.com" TypeAAAA 0
    (by decide) (by decide) (by decide) (mkQuery "www.example.com" TypeAAAA) rfl rfl

/-- C2: a successful resolution answers with the accumulated alias records
followed by the found records, in that order; concretely, the alias store
resolves the alias name to Success with the alias record first, the address
record second, and the alias target equal to the canonical real name. -/
theorem c2_success_answer_order :
    (∀ (cfg : HandlerConfig) (heap : Heap) (query : DnsMsg) (qType : Nat) (qName : String)
        (cnames records : List DnsRR),
      cfg.Lookup heap qName qType = (records, true) → 0 < records.length →
      loopStep cfg heap query qType qName cnames
        = .done { emptyMsg.SetReply query with Answer := cnames ++ records } ∧
      ({ emptyMsg.SetReply query with Answer := cnames ++ records }).Rcode = RcodeSuccess) ∧
    ((NewHandler aliasState.1).PrepareResponse aliasState.2 (mkQuery "alias.example.com" TypeA)
      = some { Response := true, Rcode := RcodeSuccess,
               Question := [⟨"alias.example.com", TypeA, ClassINET⟩],
               Answer := [DnsRR.CNAME
                   ⟨"alias.example.com.", TypeCNAME, ClassINET, handlerDefaultTTL⟩
                   "real.example.com.",
                 DnsRR.A ⟨"real.example.com.", TypeA, ClassINET, handlerDefaultTTL⟩
                   [8, 8, 8, 8]] } ∧
      "real.example.com." = canonicalName "real.example.com") := by
  constructor
  · intro cfg heap query qType qName cnames records hl hne
    exact ⟨loopStep_found query cnames hl hne, rfl⟩
  · constructor
    · decide
    · decide

/-- C2 witness: the success branch applied at the terminal lookup of the
alias store. -/
theorem c2_witness :
    loopStep aliasState.1 aliasState.2 (mkQuery "alias.example.com" TypeA) TypeA
        "real.example.com." []
      = .done { emptyMsg.SetReply (mkQuery "alias.example.com" TypeA) with
          Answer := [] ++ [DnsRR.A ⟨"real.example.com.", TypeA, ClassINET, handlerDefaultTTL⟩
            [8, 8, 8, 8]] } ∧
    ({ emptyMsg.SetReply (mkQuery "alias.example.com" TypeA) with
        Answer := [] ++ [DnsRR.A ⟨"real.example.com.", TypeA, ClassINET, handlerDefaultTTL⟩
          [8, 8, 8, 8]] }).Rcode = RcodeSuccess :=
  c2_success_answer_order.1 aliasState.1 aliasState.2 (mkQuery "alias.example.com" TypeA)
    TypeA "real.example.com." []
    [DnsRR.A ⟨"real.example.com.", TypeA, ClassINET, handlerDefaultTTL⟩ [8, 8, 8, 8]]
    (by decide) (by decide)

/-- C7 counterexample: on a store where a.example.com owns two alias records,
a single loop iteration that follows the alias appends both alias records to
the prefix, not exactly one; end to end the answer carries two alias records
for the one followed hop. -/
theorem c7_counterexample :
    loopStep multiAliasState.1 multiAliasState.2 (mkQuery "a.example.com" TypeA) TypeA
        "a.example.com." []
      = .running "b.example.com."
          [DnsRR.CNAME ⟨"a.example.com.", TypeCNAME, ClassINET, handlerDefaultTTL⟩
             "b.example.com.",
           DnsRR.CNAME ⟨"a.example.com.", TypeCNAME, ClassINET, handlerDefaultTTL⟩
             "c.example.com."] ∧
    ¬([DnsRR.CNAME ⟨"a.example.com.", TypeCNAME, ClassINET, handlerDefaultTTL⟩
          "b.example.com.",
       DnsRR.CNAME ⟨"a.example.com.", TypeCNAME, ClassINET, handlerDefaultTTL⟩
          "c.example.com."].length = 1) ∧
    ((NewHandler multiAliasState.1).PrepareResponse multiAliasState.2
        (mkQuery "a.example.com" TypeA)).map (fun m => m.Answer.length) = some 3 := by
  refine ⟨by decide, by decide, by decide⟩

/-- C7 amended: a loop iteration that follows an alias appends all alias
records returned by the CNAME lookup (one per alias record the name owns,
possibly more than one) to the alias prefix, sets the current name to the
first returned record's target, and consumes one iteration. -/
theorem c7_amended :
    ∀ (cfg : HandlerConfig) (heap : Heap) (query : DnsMsg) (qType : Nat) (qName : String)
        (cnames : List DnsRR) (hdr : RR_Header) (target : String) (more : List DnsRR),
      cfg.Lookup heap qName qType = ([], true) →
      cfg.Lookup heap qName TypeCNAME = (DnsRR.CNAME hdr target :: more, true) →
      loopStep cfg heap query qType qName cnames
        = .running target (cnames ++ (DnsRR.CNAME hdr target :: more)) ∧
      (cnames ++ (DnsRR.CNAME hdr target :: more)).length
        = cnames.length + 1 + more.length := by
  intro cfg heap query qType qName cnames hdr target more hl hlc
  refine ⟨loopStep_alias query cnames hl hlc, ?_⟩
  simp [List.length_append]
  omega

/-- C7 amended witness: the double-alias iteration observed concretely. -/
theorem c7_witness :
    loopStep multiAliasState.1 multiAliasState.2 (mkQuery "a.example.com" TypeA) TypeA
        "a.example.com." []
      = .running "b.example.com."
          ([] ++ (DnsRR.CNAME ⟨"a.example.com.", TypeCNAME, ClassINET, handlerDefaultTTL⟩
              "b.example.com."
            :: [DnsRR.CNAME ⟨"a.example.com.", TypeCNAME, ClassINET, handlerDefaultTTL⟩
              "c.example.com."])) ∧
    ([] ++ (DnsRR.CNAME ⟨"a.example.com.", TypeCNAME, ClassINET, handlerDefaultTTL⟩
        "b.example.com."
      :: [DnsRR.CNAME ⟨"a.example.com.", TypeCNAME, ClassINET, handlerDefaultTTL⟩
        "c.example.com."])).length = List.length ([] : List DnsRR) + 1 + 1 :=
  c7_amended multiAliasState.1 multiAliasState.2 (mkQuery "a.example.com" TypeA) TypeA
    "a.example.com." []
    ⟨"a.example.com.", TypeCNAME, ClassINET, handlerDefaultTTL⟩ "b.example.com."
    [DnsRR.CNAME ⟨"a.example.com.", TypeCNAME, ClassINET, handlerDefaultTTL⟩ "c.example.com."]
    (by decide) (by decide)

/-- C9: in every store state reachable from the empty store through the
public operations, a name present as a key maps to a non-empty record set. -/
theorem c9_nonempty_record_sets :
    ∀ {c : HandlerConfig} {heap : Heap}, Reachable c heap →
      ∀ (k : String) (p : Ptr), lookupKey k c.rrs = some p → Heap.read heap p ≠ [] := by
  intro c heap h k p hkp
  exact (reachable_StoreWF h).2.1 k p hkp

/-- C9 witness: the key stored by one AddNetipAddr call has a non-empty cell. -/
theorem c9_witness : Heap.read onlyV4State.2 0 ≠ [] :=
  c9_nonempty_record_sets
    (Reachable.addNetipAddr "www.example.com" ⟨false, [1, 1, 1, 1]⟩ Reachable.init)
    "www.example.com." 0 (by decide)

/-- C10: every record Lookup returns has the requested type in its header;
on reachable stores the first record of a CNAME lookup is always a CNAME
record, so the type assertion in the alias branch cannot fail and
PrepareResponse never panics. -/
theorem c10_lookup_type_safety :
    (∀ (c : HandlerConfig) (heap : Heap) (name : String) (qtype : Nat) (r : DnsRR),
      r ∈ (c.Lookup heap name qtype).1 → r.Header.Rrtype = qtype) ∧
    (∀ {c : HandlerConfig} {heap : Heap}, Reachable c heap →
      ∀ (name : String) (r : DnsRR) (more : List DnsRR),
        (c.Lookup heap name TypeCNAME).1 = r :: more →
        ∃ hdr target, r = DnsRR.CNAME hdr target) ∧
    (∀ {c : HandlerConfig} {heap : Heap}, Reachable c heap → ∀ (query : DnsMsg),
      (NewHandler c).PrepareResponse heap query ≠ none) := by
  refine ⟨?_, ?_, ?_⟩
  · intro c heap name qtype r hr
    exact Lookup_rrtype r hr
  · intro c heap h name r more hl
    have hmem : r ∈ (c.Lookup heap name TypeCNAME).1 := by
      rw [hl]
      exact List.mem_cons_self _ _
    exact wfRecord_cname (Lookup_wfRecord (reachable_StoreWF h) hmem) (Lookup_rrtype r hmem)
  · intro c heap h query hnone
    have hs := prepareResponse_isSome (reachable_StoreWF h) query
    rw [hnone] at hs
    exact Bool.false_ne_true hs

/-- C10 witness: the filter and the CNAME-head shape observed on the cycle
store, and panic freedom of a resolution against it. -/
theorem c10_witness :
    (DnsRR.CNAME ⟨"a.example.com.", TypeCNAME, ClassINET, handlerDefaultTTL⟩
        "b.example.com.").Header.Rrtype = TypeCNAME ∧
    (∃ hdr target,
      DnsRR.CNAME ⟨"a.example.com.", TypeCNAME, ClassINET, handlerDefaultTTL⟩
          "b.example.com."
        = DnsRR.CNAME hdr target) ∧
    (NewHandler cycleState.1).PrepareResponse cycleState.2 (mkQuery "a.example.com" TypeA)
      ≠ none :=
  ⟨c10_lookup_type_safety.1 cycleState.1 cycleState.2 "a.example.com." TypeCNAME _ (by decide),
   c10_lookup_type_safety.2.1
     (Reachable.addCNAME "b.example.com" "a.example.com"
       (Reachable.addCNAME "a.example.com" "b.example.com" Reachable.init))
     "a.example.com." _ [] (by decide),
   c10_lookup_type_safety.2.2
     (Reachable.addCNAME "b.example.com" "a.example.com"
       (Reachable.addCNAME "a.example.com" "b.example.com" Reachable.init))
     (mkQuery "a.example.com" TypeA)⟩

/-- C8: Clone yields a store with the same Lookup results whose cells are
disjoint from the original's; any sequence of mutations applied through the
clone leaves every Lookup of the original unchanged, and any sequence of
mutations applied through the original leaves every Lookup of the clone
unchanged. -/
theorem c8_clone_independent :
    ∀ (c : HandlerConfig) (heap : Heap), validStore c heap →
      ∀ (ops : List StoreOp) (name : String) (qtype : Nat),
        (c.Clone heap).1.Lookup (c.Clone heap).2 name qtype = c.Lookup heap name qtype ∧
        c.Lookup (applyOps (c.Clone heap).1 (c.Clone heap).2 ops).2 name qtype
          = c.Lookup heap name qtype ∧
        (c.Clone heap).1.Lookup (applyOps c (c.Clone heap).2 ops).2 name qtype
          = (c.Clone heap).1.Lookup (c.Clone heap).2 name qtype := by
  intro c heap hv ops name qtype
  obtain ⟨ext, hext⟩ := cloneEntries_heap_ext c.rrs heap
  have h2eq : (c.Clone heap).2 = heap ++ ext := hext
  have hreads : ∀ p ∈ ptrsOf c, Heap.read (c.Clone heap).2 p = Heap.read heap p := by
    intro p hp
    rw [h2eq]
    exact Heap.read_append_lt ext (hv p hp)
  have hvc2 : validStore c (c.Clone heap).2 := by
    intro p hp
    have h1 : p < heap.length := hv p hp
    rw [h2eq]
    exact Nat.lt_of_lt_of_le h1 (by simp)
  have hptrs2 : ∀ p ∈ ptrsOf (c.Clone heap).1,
      heap.length ≤ p ∧ p < (c.Clone heap).2.length := by
    intro p hp
    obtain ⟨e, he, hpe⟩ := List.mem_map.mp hp
    have hb : heap.length ≤ e.2 ∧ e.2 < (cloneEntries c.rrs heap).2.length :=
      cloneEntries_ptrs c.rrs heap e he
    have hpe2 : e.2 = p := hpe
    rw [← hpe2]
    exact hb
  have hv2 : validStore (c.Clone heap).1 (c.Clone heap).2 := fun p hp => (hptrs2 p hp).2
  have hdisj : ∀ p ∈ ptrsOf (c.Clone heap).1, p ∉ ptrsOf c := by
    intro p hp hpc
    have h1 : heap.length ≤ p := (hptrs2 p hp).1
    have h2 : p < heap.length := hv p hpc
    exact absurd h2 (Nat.not_lt.mpr h1)
  have hdisj' : ∀ p ∈ ptrsOf c, p ∉ ptrsOf (c.Clone heap).1 := by
    intro p hp hpc
    have h1 : heap.length ≤ p := (hptrs2 p hpc).1
    have h2 : p < heap.length := hv p hp
    exact absurd h2 (Nat.not_lt.mpr h1)
  refine ⟨?_, ?_, ?_⟩
  · unfold HandlerConfig.Lookup
    rw [Clone_rrs]
    cases hl : lookupKey (canonicalName name) c.rrs with
    | none =>
      rw [(cloneEntries_lookup_none c.rrs heap _).mpr hl]
    | some p =>
      obtain ⟨p', hp', hread⟩ := cloneEntries_lookup_read c.rrs heap _ p hv hl
      rw [hp']
      show (List.filter (fun rr => qtype == rr.Header.Rrtype)
            (Heap.read (cloneEntries c.rrs heap).2 p'), true)
        = (List.filter (fun rr => qtype == rr.Header.Rrtype) (Heap.read heap p), true)
      rw [hread]
  · have hf := applyOps_frame c ops (c.Clone heap).1 (c.Clone heap).2 hvc2 hdisj
    rw [Lookup_congr c hf.1 name qtype]
    exact Lookup_congr c hreads name qtype
  · have hf := applyOps_frame (c.Clone heap).1 ops c (c.Clone heap).2 hv2 hdisj'
    exact Lookup_congr (c.Clone heap).1 hf.1 name qtype

/-- C8 witness: cloning the one-record store and removing the record through
the clone leaves the original's Lookup unchanged, and conversely. -/
theorem c8_witness :
    (onlyV4State.1.Clone onlyV4State.2).1.Lookup (onlyV4State.1.Clone onlyV4State.2).2
        "www.example.com" TypeA
      = onlyV4State.1.Lookup onlyV4State.2 "www.example.com" TypeA ∧
    onlyV4State.1.Lookup
        (applyOps (onlyV4State.1.Clone onlyV4State.2).1 (onlyV4State.1.Clone onlyV4State.2).2
          [StoreOp.remove "www.example.com"]).2 "www.example.com" TypeA
      = onlyV4State.1.Lookup onlyV4State.2 "www.example.com" TypeA ∧
    (onlyV4State.1.Clone onlyV4State.2).1.Lookup
        (applyOps onlyV4State.1 (onlyV4State.1.Clone onlyV4State.2).2
          [StoreOp.remove "www.example.com"]).2 "www.example.com" TypeA
      = (onlyV4State.1.Clone onlyV4State.2).1.Lookup (onlyV4State.1.Clone onlyV4State.2).2
          "www.example.com" TypeA :=
  c8_clone_independent onlyV4State.1 onlyV4State.2 (by decide)
    [StoreOp.remove "www.example.com"] "www.example.com" TypeA

/-- C1 counterexample: on the alias-cycle store (a→b, b→a), resolving a for
the requested type CNAME does not return ServerFailure with an empty answer;
it returns Success with the alias record in the answer, because the first
lookup of the loop already finds a record of the requested type. -/
theorem c1_counterexample :
    (NewHandler cycleState.1).PrepareResponse cycleState.2
        (mkQuery "a.example.com." TypeCNAME)
      = some { Response := true, Rcode := RcodeSuccess,
               Question := [⟨"a.example.com.", TypeCNAME, ClassINET⟩],
               Answer := [DnsRR.CNAME
                 ⟨"a.example.com.", TypeCNAME, ClassINET, handlerDefaultTTL⟩
                 "b.example.com."] } ∧
    RcodeSuccess ≠ RcodeServerFailure ∧
    [DnsRR.CNAME ⟨"a.example.com.", TypeCNAME, ClassINET, handlerDefaultTTL⟩
        "b.example.com."] ≠ ([] : List DnsRR) := by
  refine ⟨by decide, by decide, by decide⟩

/-- C1 amended: PrepareResponse always terminates with a response on
reachable stores (the alias chase is bounded by the 10-iteration fuel);
whenever the loop exhausts its 10 iterations still chasing, the response is
ServerFailure with an empty answer; and on the alias-cycle store resolving a
for any requested type other than CNAME returns ServerFailure. -/
theorem c1_loop_bound :
    (∀ (c : HandlerConfig) (heap : Heap) (query : DnsMsg), Reachable c heap →
      ((NewHandler c).PrepareResponse heap query).isSome = true) ∧
    (∀ (c : HandlerConfig) (heap : Heap) (query : DnsMsg) (q0 : Question) (qn : String)
        (cn : List DnsRR),
      query.Response = false → query.Question = [q0] → q0.Qclass = ClassINET →
      runLoop c heap query q0.Qtype maxCNAMEChain (.running q0.Name []) = .running qn cn →
      (NewHandler c).PrepareResponse heap query
        = some (emptyMsg.SetRcode query RcodeServerFailure) ∧
      (emptyMsg.SetRcode query RcodeServerFailure).Rcode = RcodeServerFailure ∧
      (emptyMsg.SetRcode query RcodeServerFailure).Answer = []) ∧
    (∀ t : Nat, t ≠ TypeCNAME →
      (NewHandler cycleState.1).PrepareResponse cycleState.2 (mkQuery "a.example.com." t)
        = some (emptyMsg.SetRcode (mkQuery "a.example.com." t) RcodeServerFailure)) := by
  have part2 : ∀ (c : HandlerConfig) (heap : Heap) (query : DnsMsg) (q0 : Question)
      (qn : String) (cn : List DnsRR),
      query.Response = false → query.Question = [q0] → q0.Qclass = ClassINET →
      runLoop c heap query q0.Qtype maxCNAMEChain (.running q0.Name []) = .running qn cn →
      (NewHandler c).PrepareResponse heap query
        = some (emptyMsg.SetRcode query RcodeServerFailure) ∧
      (emptyMsg.SetRcode query RcodeServerFailure).Rcode = RcodeServerFailure ∧
      (emptyMsg.SetRcode query RcodeServerFailure).Answer = [] := by
    intro c heap query q0 qn cn hresp hq hclass hrun
    refine ⟨?_, rfl, rfl⟩
    rw [prepareResponse_eq_runLoop c heap query q0 hresp hq hclass, hrun]
  refine ⟨?_, part2, ?_⟩
  · intro c heap query h
    exact prepareResponse_isSome (reachable_StoreWF h) query
  · intro t ht
    have hpa : lookupKey (canonicalName "a.example.com.") cycleState.1.rrs = some 0 := by
      decide
    have hpb : lookupKey (canonicalName "b.example.com.") cycleState.1.rrs = some 1 := by
      decide
    have lA : cycleState.1.Lookup cycleState.2 "a.example.com." t = ([], true) := by
      refine Lookup_eq_empty_true hpa ?_
      intro r hr
      have hcell : Heap.read cycleState.2 0
          = [DnsRR.CNAME ⟨"a.example.com.", TypeCNAME, ClassINET, handlerDefaultTTL⟩
              "b.example.com."] := by decide
      rw [hcell] at hr
      have hre : r = DnsRR.CNAME ⟨"a.example.com.", TypeCNAME, ClassINET, handlerDefaultTTL⟩
          "b.example.com." := by simpa using hr
      rw [hre]
      exact fun h => ht h.symm
    have lB : cycleState.1.Lookup cycleState.2 "b.example.com." t = ([], true) := by
      refine Lookup_eq_empty_true hpb ?_
      intro r hr
      have hcell : Heap.read cycleState.2 1
          = [DnsRR.CNAME ⟨"b.example.com.", TypeCNAME, ClassINET, handlerDefaultTTL⟩
              "a.example.com."] := by decide
      rw [hcell] at hr
      have hre : r = DnsRR.CNAME ⟨"b.example.com.", TypeCNAME, ClassINET, handlerDefaultTTL⟩
          "a.example.com." := by simpa using hr
      rw [hre]
      exact fun h => ht h.symm
    have lcA : cycleState.1.Lookup cycleState.2 "a.example.com." TypeCNAME
        = (DnsRR.CNAME ⟨"a.example.com.", TypeCNAME, ClassINET, handlerDefaultTTL⟩
            "b.example.com." :: [], true) := by decide
    have lcB : cycleState.1.Lookup cycleState.2 "b.example.com." TypeCNAME
        = (DnsRR.CNAME ⟨"b.example.com.", TypeCNAME, ClassINET, handlerDefaultTTL⟩
            "a.example.com." :: [], true) := by decide
    have stepA : ∀ cns, loopStep cycleState.1 cycleState.2 (mkQuery "a.example.com." t) t
        "a.example.com." cns
        = .running "b.example.com."
            (cns ++ (DnsRR.CNAME ⟨"a.example.com.", TypeCNAME, ClassINET, handlerDefaultTTL⟩
              "b.example.com." :: [])) :=
      fun cns => loopStep_alias (mkQuery "a.example.com." t) cns lA lcA
    have stepB : ∀ cns, loopStep cycleState.1 cycleState.2 (mkQuery "a.example.com." t) t
        "b.example.com." cns
        = .running "a.example.com."
            (cns ++ (DnsRR.CNAME ⟨"b.example.com.", TypeCNAME, ClassINET, handlerDefaultTTL⟩
              "a.example.com." :: [])) :=
      fun cns => loopStep_alias (mkQuery "a.example.com." t) cns lB lcB
    obtain ⟨qn, cns, hrun⟩ : ∃ qn cns,
        runLoop cycleState.1 cycleState.2 (mkQuery "a.example.com." t) t maxCNAMEChain
          (.running "a.example.com." []) = .running qn cns := by
      rw [show maxCNAMEChain = 9 + 1 from rfl, runLoop_succ_running, stepA]
      rw [show (9 : Nat) = 8 + 1 from rfl, runLoop_succ_running, stepB]
      rw [show (8 : Nat) = 7 + 1 from rfl, runLoop_succ_running, stepA]
      rw [show (7 : Nat) = 6 + 1 from rfl, runLoop_succ_running, stepB]
      rw [show (6 : Nat) = 5 + 1 from rfl, runLoop_succ_running, stepA]
      rw [show (5 : Nat) = 4 + 1 from rfl, runLoop_succ_running, stepB]
      rw [show (4 : Nat) = 3 + 1 from rfl, runLoop_succ_running, stepA]
      rw [show (3 : Nat) = 2 + 1 from rfl, runLoop_succ_running, stepB]
      rw [show (2 : Nat) = 1 + 1 from rfl, runLoop_succ_running, stepA]
      rw [show (1 : Nat) = 0 + 1 from rfl, runLoop_succ_running, stepB]
      rw [runLoop_zero]
      exact ⟨_, _, rfl⟩
    exact (part2 cycleState.1 cycleState.2 (mkQuery "a.example.com." t)
      ⟨"a.example.com.", t, ClassINET⟩ qn cns rfl rfl rfl hrun).1

/-- C1 witness: the bound observed on the alias-cycle store with an address
query: the loop exhausts its iterations and the handler answers
ServerFailure with an empty answer. -/
theorem c1_witness :
    ((NewHandler cycleState.1).PrepareResponse cycleState.2
        (mkQuery "a.example.com." TypeA)).isSome = true ∧
    ((NewHandler cycleState.1).PrepareResponse cycleState.2 (mkQuery "a.example.com." TypeA)
        = some (emptyMsg.SetRcode (mkQuery "a.example.com." TypeA) RcodeServerFailure) ∧
      (emptyMsg.SetRcode (mkQuery "a.example.com." TypeA) RcodeServerFailure).Rcode
        = RcodeServerFailure ∧
      (emptyMsg.SetRcode (mkQuery "a.example.com." TypeA) RcodeServerFailure).Answer = []) ∧
    (NewHandler cycleState.1).PrepareResponse cycleState.2 (mkQuery "a.example.com." TypeA)
      = some (emptyMsg.SetRcode (mkQuery "a.example.com." TypeA) RcodeServerFailure) :=
  ⟨c1_loop_bound.1 cycleState.1 cycleState.2 (mkQuery "a.example.com." TypeA)
     (Reachable.addCNAME "b.example.com" "a.example.com"
       (Reachable.addCNAME "a.example.com" "b.example.com" Reachable.init)),
   c1_loop_bound.2.1 cycleState.1 cycleState.2 (mkQuery "a.example.com." TypeA)
     ⟨"a.example.com.", TypeA, ClassINET⟩ "a.example.com."
     [DnsRR.CNAME ⟨"a.example.com.", TypeCNAME, ClassINET, handlerDefaultTTL⟩ "b.example.com.",
      DnsRR.CNAME ⟨"b.example.com.", TypeCNAME, ClassINET, handlerDefaultTTL⟩ "a.example.com.",
      DnsRR.CNAME ⟨"a.example.com.", TypeCNAME, ClassINET, handlerDefaultTTL⟩ "b.example.com.",
      DnsRR.CNAME ⟨"b.example.com.", TypeCNAME, ClassINET, handlerDefaultTTL⟩ "a.example.com.",
      DnsRR.CNAME ⟨"a.example.com.", TypeCNAME, ClassINET, handlerDefaultTTL⟩ "b.example.com.",
      DnsRR.CNAME ⟨"b.example.com.", TypeCNAME, ClassINET, handlerDefaultTTL⟩ "a.example.com.",
      DnsRR.CNAME ⟨"a.example.com.", TypeCNAME, ClassINET, handlerDefaultTTL⟩ "b.example.com.",
      DnsRR.CNAME ⟨"b.example.com.", TypeCNAME, ClassINET, handlerDefaultTTL⟩ "a.example.com.",
      DnsRR.CNAME ⟨"a.example.com.", TypeCNAME, ClassINET, handlerDefaultTTL⟩ "b.example.com.",
      DnsRR.CNAME ⟨"b.example.com.", TypeCNAME, ClassINET, handlerDefaultTTL⟩ "a.example.com."]
     rfl rfl rfl (by decide),
   c1_loop_bound.2.2 TypeA (by decide)⟩

end Dnstest
